import Mathlib

/-!
Verification development for the jupytutor notebook plugin.

This file gives a shallow embedding, in Lean, of the two core subsystems of
the repository: the rule-based configuration resolver
(`src/helpers/config-rules.ts`: `applyConfigRules`, `mergeRuleConfigs`,
`buildCellContext`, `extractOutputsAsText`, `extractOutputText`,
`detectOutputError`, `evaluatePredicate`, `evaluateArrayPredicate`,
`evaluateStringPredicate`) and the remote context-retrieval engine
(`GlobalNotebookContextRetrieval`: constructor timing, `scrapeSourceLinks`,
`getContext`, `getSourceLinks`, `expandJupyterBookLinks`, `normalizeUrl`).

Conventions of the embedding:
* JavaScript strings are Lean `String`s, manipulated through their `List Char`
  representation; `String.prototype.includes` and the string-pattern form of
  `String.prototype.replace` (including the ECMAScript `GetSubstitution`
  treatment of `$` sequences in the replacement string) are modelled
  explicitly.
* JSON values (cell metadata, code-cell output records) are a mutual
  inductive `JsonVal`/`JsonArr`/`JsonObj`, with JavaScript truthiness,
  `String(...)` conversion, `Array.prototype.join` and `JSON.stringify`
  modelled on it.
* The host regular-expression engine is an abstract parameter
  (`RegexEngine`); a thrown exception is modelled as `Except.error`, and the
  `try/catch` in `evaluateStringPredicate` as the corresponding `match`.
* The `zod` schemas `RuleConfigOverrideSchema` and `PredicateSchema` live in
  `src/schemas/`, which is not part of the sources; they are modelled from
  the specification (see the doc comments marked "Modelled from the spec").
* The asynchronous constructor of `GlobalNotebookContextRetrieval` is
  modelled by an explicit timeline: every page fetch is given a duration and
  a result by an abstract `FetchEnv`, promise-resolution instants are
  computed as naturals, and a reader observes the internal context field at
  the instant its awaited promise resolves.
-/

namespace Jupytutor

/-! ## JavaScript string primitives -/

/-- Boolean prefix test on char lists (helper for substring search). -/
def charPrefixOf : List Char → List Char → Bool
  | [], _ => true
  | _ :: _, [] => false
  | a :: as, b :: bs => a == b && charPrefixOf as bs

/-- Split a char list around the first occurrence of `pat`: returns the part
before the match and the part after it, or `none` if `pat` does not occur.
This is the search underlying both `String.prototype.includes` and the
string-pattern form of `String.prototype.replace`. -/
def splitFirstOcc (pat : List Char) : List Char → Option (List Char × List Char)
  | [] => if charPrefixOf pat [] then some ([], []) else none
  | c :: rest =>
    if charPrefixOf pat (c :: rest) then some ([], (c :: rest).drop pat.length)
    else
      match splitFirstOcc pat rest with
      | none => none
      | some (a, b) => some (c :: a, b)

/-- Model of `String.prototype.includes` (substring containment). -/
def strIncludes (s pat : String) : Bool :=
  (splitFirstOcc pat.data s.data).isSome

mutual

/-- Model of ECMAScript `GetSubstitution` for a string search pattern (no
capture groups, no named captures): expands `$` sequences occurring in the
replacement string.  `matched` is the matched substring, `before` the part of
the subject before the match, `after` the part after it.  Special characters
are compared through their code points to keep the source ASCII-clean:
36 = dollar, 38 = ampersand, 96 = backquote, 39 = quote. -/
def getSubstitution (matched before after : List Char) : List Char → List Char
  | [] => []
  | c :: rest =>
    if c.toNat = 36 then getSubstitutionDollar matched before after rest
    else c :: getSubstitution matched before after rest

/-- Continuation of `getSubstitution` after a dollar character. -/
def getSubstitutionDollar (matched before after : List Char) : List Char → List Char
  | [] => [Char.ofNat 36]
  | d :: rest2 =>
    if d.toNat = 36 then Char.ofNat 36 :: getSubstitution matched before after rest2
    else if d.toNat = 38 then matched ++ getSubstitution matched before after rest2
    else if d.toNat = 96 then before ++ getSubstitution matched before after rest2
    else if d.toNat = 39 then after ++ getSubstitution matched before after rest2
    else Char.ofNat 36 :: d :: getSubstitution matched before after rest2

end

/-- Model of `s.replace(pat, rep)` where `pat` is a plain string: replace the
first occurrence of `pat` in `s` by `rep`, expanding `$` sequences in `rep`
per `GetSubstitution`. -/
def jsStringReplace (s pat rep : String) : String :=
  match splitFirstOcc pat.data s.data with
  | none => s
  | some (before, after) =>
    ⟨before ++ getSubstitution pat.data before after rep.data ++ after⟩

/-- Literal first-occurrence substitution, written from the specification's
words ("substitute it with `current.instructorNote` (first occurrence
only)"): no interpretation of the replacement string. -/
def literalReplaceFirst (s pat rep : String) : String :=
  match splitFirstOcc pat.data s.data with
  | none => s
  | some (before, after) => ⟨before ++ rep.data ++ after⟩

/-- A string free of dollar characters (the replacement strings on which
`jsStringReplace` and `literalReplaceFirst` agree). -/
def noDollar (s : String) : Bool :=
  s.data.all (fun c => c.toNat ≠ 36)

/-! ## Rule configuration overrides and merging -/

/-- Modelled from the spec: `RuleConfigOverrideSchema` (in the absent
`src/schemas/config`), fully resolved form.  "RuleConfigOverride (resolved
config) — chatEnabled: bool (default false), chatProactive: bool (default
true), instructorNote: string (default ""), quickResponses: ordered
list of strings (default empty)." -/
structure RuleConfigOverride where
  chatEnabled : Bool
  chatProactive : Bool
  instructorNote : String
  quickResponses : List String
deriving Repr, DecidableEq

/-- Modelled from the spec: result of `RuleConfigOverrideSchema.parse({})`,
i.e. the schema defaults. -/
def defaultRuleConfigOverride : RuleConfigOverride :=
  { chatEnabled := false
    chatProactive := true
    instructorNote := ""
    quickResponses := [] }

/-- Modelled from the spec: `RuleConfigOverrideSchema.partial()` output — a
partially-specified override; `none` models an absent (`undefined`) key. -/
structure PartialRuleConfigOverride where
  chatEnabled : Option Bool := none
  chatProactive : Option Bool := none
  instructorNote : Option String := none
  quickResponses : Option (List String) := none
deriving Repr, DecidableEq

/-- The literal placeholder token recognized by `mergeRuleConfigs`
(the characters are `{{prior_notes}}`; braces written via codes). -/
def priorNotesPlaceholder : String := "\x7b\x7bprior_notes\x7d\x7d"

/-- Embedding of `mergeRuleConfigs` (config-rules.ts lines 88–111): the
spread `{...current, ...update}` lets every key present in `update` win, and
`instructorNote` is then overwritten with the placeholder-aware value
computed by `update.instructorNote.replace('{{prior_notes}}', instructorNote)`. -/
def mergeRuleConfigs (current : RuleConfigOverride) (update : PartialRuleConfigOverride) :
    RuleConfigOverride :=
  let instructorNote :=
    match update.instructorNote with
    | none => current.instructorNote
    | some s =>
      if strIncludes s priorNotesPlaceholder then
        jsStringReplace s priorNotesPlaceholder current.instructorNote
      else s
  { chatEnabled := (update.chatEnabled).getD current.chatEnabled
    chatProactive := (update.chatProactive).getD current.chatProactive
    instructorNote := instructorNote
    quickResponses := (update.quickResponses).getD current.quickResponses }

/-! ## JSON values (cell metadata and code-cell output records) -/

mutual

/-- JSON values, as stored in notebook/cell metadata and in serialized code
cell output records.  Arrays and objects use the dedicated list types
`JsonArr`/`JsonObj` so that every function on them is structurally
recursive. -/
inductive JsonVal where
  | null
  | bool (b : Bool)
  | num (n : Int)
  | str (s : String)
  | arr (xs : JsonArr)
  | obj (fs : JsonObj)

/-- A JSON array. -/
inductive JsonArr where
  | nil
  | cons (hd : JsonVal) (tl : JsonArr)

/-- A JSON object: an ordered list of key/value fields (keys unique, as
produced by any JavaScript object). -/
inductive JsonObj where
  | nil
  | cons (key : String) (val : JsonVal) (tl : JsonObj)

end

/-- Field lookup on a JSON object (JavaScript property access; `none` models
`undefined`). -/
def JsonObj.lookup : JsonObj → String → Option JsonVal
  | .nil, _ => none
  | .cons k v tl, key => if k = key then some v else tl.lookup key

/-- JavaScript truthiness of a JSON value. -/
def jsTruthy : JsonVal → Bool
  | .null => false
  | .bool b => b
  | .num n => n != 0
  | .str s => s != ""
  | .arr _ => true
  | .obj _ => true

/-- Property access `v.k` on an arbitrary JSON value: only objects have
named data properties (array/string/number/bool/null property access for the
names used by the source yields `undefined`). -/
def jsGetField : JsonVal → String → Option JsonVal
  | .obj fs, k => fs.lookup k
  | _, _ => none

/-- The nullish-coalescing operator `a ?? b` on possibly-undefined JSON
values (`none` = `undefined`). -/
def nullishCoalesce (a b : Option JsonVal) : Option JsonVal :=
  match a with
  | none => b
  | some .null => b
  | some v => some v

mutual

/-- JavaScript `String(v)` conversion of a JSON value. -/
def jsToString : JsonVal → String
  | .null => "null"
  | .bool b => if b then "true" else "false"
  | .num n => toString n
  | .str s => s
  | .arr xs => jsArrJoin "," xs
  | .obj _ => "[object Object]"

/-- JavaScript `Array.prototype.join(sep)` on a JSON array. -/
def jsArrJoin (sep : String) : JsonArr → String
  | .nil => ""
  | .cons hd .nil => jsJoinElem hd
  | .cons hd tl => jsJoinElem hd ++ sep ++ jsArrJoin sep tl

/-- Element conversion used by `join`: `null` becomes the empty string,
other values go through `String(...)`. -/
def jsJoinElem : JsonVal → String
  | .null => ""
  | .bool b => if b then "true" else "false"
  | .num n => toString n
  | .str s => s
  | .arr xs => jsArrJoin "," xs
  | .obj _ => "[object Object]"

end

/-- String escaping of `JSON.stringify` (the cases that occur in practice:
backslash, double quote and the common control characters). -/
def jsonQuote (s : String) : String :=
  "\"" ++ ⟨s.data.flatMap (fun c =>
    if c = '\\' then ['\\', '\\']
    else if c = '"' then ['\\', '"']
    else if c = '\n' then ['\\', 'n']
    else if c = '\t' then ['\\', 't']
    else if c = '\r' then ['\\', 'r']
    else [c])⟩ ++ "\""

mutual

/-- Model of `JSON.stringify` on a JSON value. -/
def jsonStringify : JsonVal → String
  | .null => "null"
  | .bool b => if b then "true" else "false"
  | .num n => toString n
  | .str s => jsonQuote s
  | .arr xs => "[" ++ jsonStringifyArr xs ++ "]"
  | .obj fs => "\x7b" ++ jsonStringifyObj fs ++ "\x7d"

/-- `JSON.stringify` of the elements of an array, comma-separated. -/
def jsonStringifyArr : JsonArr → String
  | .nil => ""
  | .cons hd .nil => jsonStringify hd
  | .cons hd tl => jsonStringify hd ++ "," ++ jsonStringifyArr tl

/-- `JSON.stringify` of the fields of an object, comma-separated. -/
def jsonStringifyObj : JsonObj → String
  | .nil => ""
  | .cons k v .nil => jsonQuote k ++ ":" ++ jsonStringify v
  | .cons k v tl => jsonQuote k ++ ":" ++ jsonStringify v ++ "," ++ jsonStringifyObj tl

end

/-! ## Cells and cell contexts -/

/-- The host cell object, as far as `config-rules.ts` consumes it: a type
string, the raw source text, keyed metadata, and (for code cells) the
serialized (`toJSON`-ed) output records. -/
structure Cell where
  type : String
  source : String
  metadata : JsonObj
  outputs : List JsonVal

/-- Model of `cell.getMetadata(key)`. -/
def Cell.getMetadata (c : Cell) (key : String) : Option JsonVal :=
  c.metadata.lookup key

/-- The derived cell snapshot (`CellContext` in config-rules.ts). -/
structure CellContext where
  type : String
  text : String
  editable : Bool
  tags : List String
  outputText : String
  hasError : Bool
deriving Repr, DecidableEq

/-- The string-typed entries of a JSON array (`tags` filtering). -/
def JsonArr.strings : JsonArr → List String
  | .nil => []
  | .cons (.str s) tl => s :: tl.strings
  | .cons _ tl => tl.strings

/-- Join-an-array-of-lines-or-stringify step shared by the `text/plain` and
`text` branches: `Array.isArray(v) ? v.join('\n') : String(v)`. -/
def joinLinesOrString : JsonVal → String
  | .arr xs => jsArrJoin "\n" xs
  | v => jsToString v

/-- Embedding of `extractOutputText` (config-rules.ts lines 154–181).  The
output record is already in serialized form (`output.toJSON()`), so the
leading `const json = ...` is the identity here. -/
def extractOutputText (output : JsonVal) : String :=
  if jsTruthy output = false then ""
  else
    let data := jsGetField output "data"
    let textPlain :=
      match data with
      | some (.obj fs) => nullishCoalesce (fs.lookup "text/plain") (fs.lookup "text")
      | some (.arr _) => nullishCoalesce none none
      | _ => none
    match textPlain with
    | some v => joinLinesOrString v
    | none =>
      match jsGetField output "text" with
      | some v => joinLinesOrString v
      | none =>
        match jsGetField output "evalue" with
        | some v => jsToString v
        | none => jsonStringify output

/-- Embedding of `extractOutputsAsText` (config-rules.ts lines 143–152):
extract each output record's text, drop falsy (empty) strings, join with
newlines. -/
def extractOutputsAsText (outputs : List JsonVal) : String :=
  String.intercalate "\n" ((outputs.map extractOutputText).filter (fun s => s ≠ ""))

/-- Embedding of `detectOutputError` (config-rules.ts lines 183–196): some
output record's declared kind (`output_type`, falling back to the model's
`type` property) is `'error'`. -/
def detectOutputError (outputs : List JsonVal) : Bool :=
  outputs.any (fun o =>
    match nullishCoalesce (jsGetField o "output_type") (jsGetField o "type") with
    | some (.str s) => s = "error"
    | _ => false)

/-- Embedding of `buildCellContext` (config-rules.ts lines 113–141). -/
def buildCellContext (c : Cell) : CellContext :=
  let type := if c.type = "code" then "code"
    else if c.type = "markdown" then "markdown" else "unknown"
  let editable :=
    match c.getMetadata "editable" with
    | none => true
    | some v => jsTruthy v
  let tags :=
    match c.getMetadata "tags" with
    | some (.arr xs) => xs.strings
    | _ => []
  { type := type
    text := c.source
    editable := editable
    tags := tags
    outputText := if type = "code" then extractOutputsAsText c.outputs else ""
    hasError := if type = "code" then detectOutputError c.outputs else false }

/-! ## Predicates and their evaluation -/

/-- The host regular-expression facility, abstracted: `exec pattern flags
value` models `new RegExp(pattern, flags).test(value)`; `Except.error`
models a thrown exception (for instance a `SyntaxError` from a malformed
pattern), which the `try/catch` of `evaluateStringPredicate` converts to a
non-match. -/
structure RegexEngine where
  exec : String → String → String → Except String Bool

/-- Modelled from the spec: the string-matcher union of `PredicateSchema`
(in the absent `src/schemas/predicate`): a literal string, an `is` wrapper,
or a regex matcher with optional flags (the evaluator defaults absent flags
to the empty string). -/
inductive StrMatch where
  | lit (s : String)
  | is (s : String)
  | matchesRegex (pattern : String) (flags : Option String)

/-- Modelled from the spec: the array matcher — `any` or `all` over a string
matcher. -/
inductive ArrMatch where
  | any (m : StrMatch)
  | all (m : StrMatch)

/-- Modelled from the spec: the `cellType` operand — a literal string or an
`is` wrapper (the evaluator extracts the same string from both). -/
inductive CellTypeExpr where
  | str (s : String)
  | isObj (s : String)

/-- Modelled from the spec: the recursive predicate union of
`PredicateSchema` — exactly one variant tag per node. -/
inductive Predicate where
  | AND (ps : List Predicate)
  | OR (ps : List Predicate)
  | NOT (p : Predicate)
  | nearbyCell (relativePosition : Int) (matchesPred : Predicate)
  | cellType (expected : CellTypeExpr)
  | output (m : StrMatch)
  | hasError (b : Bool)
  | content (m : StrMatch)
  | isEditable (b : Bool)
  | tags (m : ArrMatch)

/-- Embedding of `evaluateStringPredicate` (config-rules.ts lines 288–319);
the `try/catch` around regex construction and testing becomes a `match` on
the engine's `Except` result. -/
def evaluateStringPredicate (eng : RegexEngine) (value : String) : StrMatch → Bool
  | .lit s => value = s
  | .is s => value = s
  | .matchesRegex pattern flags =>
    match eng.exec pattern (flags.getD "") value with
    | .error _ => false
    | .ok b => b

/-- Embedding of `evaluateArrayPredicate` (config-rules.ts lines 267–286). -/
def evaluateArrayPredicate (eng : RegexEngine) (values : List String) : ArrMatch → Bool
  | .any m => values.any (fun v => evaluateStringPredicate eng v m)
  | .all m => values.all (fun v => evaluateStringPredicate eng v m)

mutual

/-- Embedding of `evaluatePredicate` (config-rules.ts lines 198–265).
Combinators never consult the context; every leaf first resolves
`contextForIndex cellIndex` and is false when it is `none`. -/
def evaluatePredicate (eng : RegexEngine) :
    Predicate → (Int → Option CellContext) → Int → Bool
  | .AND ps, contextForIndex, cellIndex =>
    evaluatePredicateAll eng ps contextForIndex cellIndex
  | .OR ps, contextForIndex, cellIndex =>
    evaluatePredicateAny eng ps contextForIndex cellIndex
  | .NOT p, contextForIndex, cellIndex =>
    !evaluatePredicate eng p contextForIndex cellIndex
  | .nearbyCell relativePosition matchesPred, contextForIndex, cellIndex =>
    evaluatePredicate eng matchesPred contextForIndex (cellIndex + relativePosition)
  | .cellType expected, contextForIndex, cellIndex =>
    match contextForIndex cellIndex with
    | none => false
    | some context =>
      (match expected with | .str s => s | .isObj s => s) = context.type
  | .output m, contextForIndex, cellIndex =>
    match contextForIndex cellIndex with
    | none => false
    | some context =>
      if context.outputText = "" then false
      else evaluateStringPredicate eng context.outputText m
  | .hasError b, contextForIndex, cellIndex =>
    match contextForIndex cellIndex with
    | none => false
    | some context => b = context.hasError
  | .content m, contextForIndex, cellIndex =>
    match contextForIndex cellIndex with
    | none => false
    | some context => evaluateStringPredicate eng context.text m
  | .isEditable b, contextForIndex, cellIndex =>
    match contextForIndex cellIndex with
    | none => false
    | some context => b = context.editable
  | .tags m, contextForIndex, cellIndex =>
    match contextForIndex cellIndex with
    | none => false
    | some context => evaluateArrayPredicate eng context.tags m

/-- `predicate.AND.every(...)` over the child list. -/
def evaluatePredicateAll (eng : RegexEngine) :
    List Predicate → (Int → Option CellContext) → Int → Bool
  | [], _, _ => true
  | p :: ps, contextForIndex, cellIndex =>
    evaluatePredicate eng p contextForIndex cellIndex &&
      evaluatePredicateAll eng ps contextForIndex cellIndex

/-- `predicate.OR.some(...)` over the child list. -/
def evaluatePredicateAny (eng : RegexEngine) :
    List Predicate → (Int → Option CellContext) → Int → Bool
  | [], _, _ => false
  | p :: ps, contextForIndex, cellIndex =>
    evaluatePredicate eng p contextForIndex cellIndex ||
      evaluatePredicateAny eng ps contextForIndex cellIndex

end

/-! ## The rule resolver -/

/-- A notebook is its ordered cell list, as far as `applyConfigRules`
consumes it. -/
abbrev Notebook := List Cell

/-- Model of `notebookModel.cells.get(index)` combined with the `if (cell)`
guard: `none` outside the index range. -/
def cellsGet (notebookModel : Notebook) (index : Int) : Option Cell :=
  if index < 0 then none else notebookModel.get? index.toNat

/-- Embedding of the `getCellContext` closure of `applyConfigRules`
(config-rules.ts lines 27–44); the per-call memoization cache is a pure
memoization of `buildCellContext` and is omitted. -/
def cellContextLookup (notebookModel : Notebook) : Int → Option CellContext :=
  fun index =>
    if index < 0 ∨ (notebookModel.length : Int) ≤ index then none
    else (cellsGet notebookModel index).map buildCellContext

/-- A notebook-level rule: an optional guard predicate and a partial config
(already validated by the configuration schema at load time). -/
structure Rule where
  when : Option Predicate := none
  config : PartialRuleConfigOverride := {}

/-- The string-typed entries of a JSON array, or `none` if some entry is not
a string (zod `z.array(z.string())`). -/
def jsonStrList : JsonArr → Option (List String)
  | .nil => some []
  | .cons (.str s) tl => (jsonStrList tl).map (fun l => s :: l)
  | .cons _ _ => none

/-- Modelled from the spec:
`RuleConfigOverrideSchema.partial().safeParse(raw)` on a raw metadata
object — each recognized key, when present, must have the declared type
(`chatEnabled`/`chatProactive` boolean, `instructorNote` string,
`quickResponses` array of strings), otherwise the whole parse fails;
unrecognized keys are ignored (zod strip mode); absent keys stay absent
(`partial()` adds no defaults).  `none` models a failed parse. -/
def parsePartialRuleConfig (raw : JsonObj) : Option PartialRuleConfigOverride := do
  let chatEnabled ←
    match raw.lookup "chatEnabled" with
    | none => some none
    | some (.bool b) => some (some b)
    | some _ => none
  let chatProactive ←
    match raw.lookup "chatProactive" with
    | none => some none
    | some (.bool b) => some (some b)
    | some _ => none
  let instructorNote ←
    match raw.lookup "instructorNote" with
    | none => some none
    | some (.str s) => some (some s)
    | some _ => none
  let quickResponses ←
    match raw.lookup "quickResponses" with
    | none => some none
    | some (.arr xs) => (jsonStrList xs).map some
    | some _ => none
  pure
    { chatEnabled := chatEnabled
      chatProactive := chatProactive
      instructorNote := instructorNote
      quickResponses := quickResponses }

/-- Embedding of `applyConfigRules` (config-rules.ts lines 19–86): fold the
rules over the schema-default config, then apply the cell's own `jupytutor`
metadata override when it is a non-null non-array object that validates as a
partial config. -/
def applyConfigRules (eng : RegexEngine) (notebookModel : Notebook) (cellIndex : Int)
    (configRules : List Rule) : RuleConfigOverride :=
  let getCellContext := cellContextLookup notebookModel
  let mergedConfig := configRules.foldl
    (fun mergedConfig rule =>
      let ruleMatches :=
        match rule.when with
        | none => true
        | some predicate => evaluatePredicate eng predicate getCellContext cellIndex
      if ruleMatches then mergeRuleConfigs mergedConfig rule.config else mergedConfig)
    defaultRuleConfigOverride
  match cellsGet notebookModel cellIndex with
  | none => mergedConfig
  | some cell =>
    match cell.getMetadata "jupytutor" with
    | some (.obj raw) =>
      match parsePartialRuleConfig raw with
      | some explicitOverride => mergeRuleConfigs mergedConfig explicitOverride
      | none => mergedConfig
    | _ => mergedConfig

/-! ## URLs

A structural model of the WHATWG `URL` object, restricted to already
canonical absolute `http(s)`-style URLs (lower-case all-letter scheme,
non-empty host, no percent-encoding normalization, no default-port
elision).  `parseUrl` returning `none` models the `URL` constructor
throwing. -/

/-- The components of a parsed URL.  `query`/`fragment` are `none` when the
`?`/`#` delimiter is absent (so `u.hash = ''` in the source corresponds to
`fragment := none`). -/
structure JsUrl where
  scheme : String
  host : String
  pathname : String
  query : Option String
  fragment : Option String
deriving Repr, DecidableEq

/-- Serialization (`urlObj.href`). -/
def JsUrl.href (u : JsUrl) : String :=
  u.scheme ++ "://" ++ u.host ++ u.pathname ++
    (match u.query with | none => "" | some q => "?" ++ q) ++
    (match u.fragment with | none => "" | some f => "#" ++ f)

/-- Split a char list at the first occurrence of a single character,
dropping the delimiter. -/
def splitOnFirst (ch : Char) : List Char → Option (List Char × List Char)
  | [] => none
  | c :: rest =>
    if c = ch then some ([], rest)
    else
      match splitOnFirst ch rest with
      | none => none
      | some (a, b) => some (c :: a, b)

/-- Model of `new URL(s)` for absolute URLs of the shape
`scheme://host[/path][?query][#fragment]`: `none` models a thrown
`TypeError`.  A missing path serializes as `/` (as WHATWG does for the
special schemes this repository uses). -/
def parseUrl (s : String) : Option JsUrl :=
  match splitFirstOcc "://".data s.data with
  | none => none
  | some (schemeCs, rest) =>
    if schemeCs = [] ∨ ¬ schemeCs.all (fun c => c.isAlpha) then none
    else
      let (beforeFrag, fragment) :=
        match splitOnFirst '#' rest with
        | none => (rest, none)
        | some (a, f) => (a, some (String.mk f))
      let (beforeQuery, query) :=
        match splitOnFirst '?' beforeFrag with
        | none => (beforeFrag, none)
        | some (a, q) => (a, some (String.mk q))
      let (hostCs, pathname) :=
        match splitOnFirst '/' beforeQuery with
        | none => (beforeQuery, "/")
        | some (h, p) => (h, String.mk ('/' :: p))
      if hostCs = [] then none
      else some
        { scheme := String.mk schemeCs
          host := String.mk hostCs
          pathname := pathname
          query := query
          fragment := fragment }

/-- The trailing-slash strip of `normalizeUrl`:
`pathname.length > 1 && pathname.endsWith('/')` then `slice(0, -1)`. -/
def stripTrailingSlash (p : String) : String :=
  if p.length > 1 ∧ p.data.getLast? = some '/' then String.mk p.data.dropLast else p

/-- Embedding of `GlobalNotebookContextRetrieval.normalizeUrl`
(config-rules.ts lines 602–616): drop the hash fragment, strip one trailing
slash from non-root paths, reserialize; on a parse failure return the input
unchanged. -/
def normalizeUrl (url : String) : String :=
  match parseUrl url with
  | none => url
  | some urlObj =>
    ({ urlObj with
        fragment := none
        pathname := stripTrailingSlash urlObj.pathname } : JsUrl).href

/-! ## JupyterBook link expansion -/

/-- `new URL(a).pathname` as used by the expansion sort comparators.  The
comparator would throw on an unparsable URL (aborting the whole expansion);
the theorems below only invoke it under hypotheses that make every compared
URL parsable, where this total variant agrees with the source. -/
def urlPathname (s : String) : String :=
  match parseUrl s with
  | none => ""
  | some u => u.pathname

/-- Maximal leading run of decimal digits. -/
def digitRun : List Char → (List Char × List Char)
  | [] => ([], [])
  | c :: rest =>
    if c.isDigit then
      let (d, r) := digitRun rest
      (c :: d, r)
    else ([], c :: rest)

/-- Numeric value of a digit run. -/
def digitsToNat (ds : List Char) : Nat :=
  ds.foldl (fun acc c => 10 * acc + (c.toNat - 48)) 0

/-- The first match of the regex `\/chapters\/(\d+)(?:\/(\d+))?` in a
pathname: the chapter number and the subsection number, with 0 standing for
"no subsection group" (exactly how both comparators consume the match). -/
def chaptersKey : List Char → Option (Nat × Nat)
  | [] => none
  | c :: rest =>
    let tryHere :=
      if charPrefixOf "/chapters/".data (c :: rest) then
        let afterLit := (c :: rest).drop "/chapters/".data.length
        let (ds, r) := digitRun afterLit
        if ds = [] then none
        else
          let chapter := digitsToNat ds
          match r with
          | '/' :: r2 =>
            let (ds2, _) := digitRun r2
            if ds2 = [] then some (chapter, 0) else some (chapter, digitsToNat ds2)
          | _ => some (chapter, 0)
      else none
    match tryHere with
    | some k => some k
    | none => chaptersKey rest

/-- Three-way code-unit comparison of char lists (the model of
`String.prototype.localeCompare` for the ASCII pathnames in scope; only the
sign of the result is consumed). -/
def compareCharList : List Char → List Char → Int
  | [], [] => 0
  | [], _ :: _ => -1
  | _ :: _, [] => 1
  | a :: as, b :: bs =>
    if a < b then -1 else if b < a then 1 else compareCharList as bs

/-- Embedding of the comparator passed to `uniqueExpandedLinks.sort` in
`expandJupyterBookLinks` (config-rules.ts lines 548–573). -/
def expandSortCompare (a b : String) : Int :=
  let aPath := urlPathname a
  let bPath := urlPathname b
  match chaptersKey aPath.data, chaptersKey bPath.data with
  | some (aChapter, aSubsection), some (bChapter, bSubsection) =>
    if aChapter ≠ bChapter then (aChapter : Int) - (bChapter : Int)
    else (aSubsection : Int) - (bSubsection : Int)
  | _, _ => compareCharList aPath.data bPath.data

/-- Stable insertion: place `a` before the first element `b` with
`le a b`. -/
def stableInsert (le : String → String → Bool) (a : String) : List String → List String
  | [] => [a]
  | b :: bs => if le a b then a :: b :: bs else b :: stableInsert le a bs

/-- Stable sort by a boolean "less or equal" relation: the model of
`Array.prototype.sort` (specified stable) under a consistent comparator. -/
def stableSort (le : String → String → Bool) (l : List String) : List String :=
  l.foldr (stableInsert le) []

/-- The "less or equal" relation induced by the source comparator. -/
def expandSortLe (a b : String) : Bool :=
  expandSortCompare a b ≤ 0

/-- Emit links in order, skipping any whose normalized form is in `seen`,
and threading the grown seen set; shared by the embedding (the second loop
over `uniqueExpandedLinks` plus the `seenUrls` bookkeeping) and the
specification-level walk. -/
def emitUnique : List String → List String → (List String × List String)
  | [], seen => ([], seen)
  | link :: rest, seen =>
    let normalizedLink := normalizeUrl link
    if seen.contains normalizedLink then emitUnique rest seen
    else
      let step := emitUnique rest (normalizedLink :: seen)
      (link :: step.1, step.2)

/-- Membership of a link in the configured JupyterBook domains (substring
containment, as in the source). -/
def isBookLink (jupyterbookURLs : List String) (url : String) : Bool :=
  jupyterbookURLs.any (fun j => strIncludes url j)

/-- Recursive core of `expandJupyterBookLinks` (config-rules.ts lines
517–594): walk the original `sourceLinks` keeping the `seenUrls` set and the
`jupyterBookIndex` counter into `allLinks` (the per-book-link discovery
results delivered by `findJupyterBookLinks`, which are fetched over the
network and therefore enter the model as an input). -/
def expandWalk (jupyterbookURLs : List String) (allLinks : List (List String)) :
    List String → List String → Nat → List String
  | [], _seen, _jbIdx => []
  | originalLink :: rest, seen, jbIdx =>
    if isBookLink jupyterbookURLs originalLink then
      let normalizedOriginalLink := normalizeUrl originalLink
      let emitOrig :=
        if seen.contains normalizedOriginalLink then ([] : List String)
        else [originalLink]
      let seen1 :=
        if seen.contains normalizedOriginalLink then seen
        else normalizedOriginalLink :: seen
      let expandedLinksForThisUrl := allLinks.getD jbIdx []
      let uniqueExpandedLinks := expandedLinksForThisUrl.filter (fun link =>
        let normalizedLink := normalizeUrl link
        normalizedLink ≠ normalizedOriginalLink && !(seen1.contains normalizedLink))
      let sortedLinks := stableSort expandSortLe uniqueExpandedLinks
      let step := emitUnique sortedLinks seen1
      emitOrig ++ step.1 ++ expandWalk jupyterbookURLs allLinks rest step.2 (jbIdx + 1)
    else
      let normalizedLink := normalizeUrl originalLink
      if seen.contains normalizedLink then
        expandWalk jupyterbookURLs allLinks rest seen jbIdx
      else
        originalLink :: expandWalk jupyterbookURLs allLinks rest (normalizedLink :: seen) jbIdx

/-- Embedding of `GlobalNotebookContextRetrieval.expandJupyterBookLinks`
(config-rules.ts lines 489–595), with the network-dependent per-page
discovery results passed in as `allLinks`. -/
def expandJupyterBookLinks (sourceLinks jupyterbookURLs : List String)
    (allLinks : List (List String)) : List String :=
  expandWalk jupyterbookURLs allLinks sourceLinks [] 0

/-- The claim's canonical order on discovered links: chapter number
ascending, then subsection number ascending (a bare chapter page counting as
subsection 0), then path lexical order. -/
def specTripleLe (a b : String) : Bool :=
  let ka := (chaptersKey (urlPathname a).data).getD (0, 0)
  let kb := (chaptersKey (urlPathname b).data).getD (0, 0)
  if ka.1 < kb.1 then true
  else if kb.1 < ka.1 then false
  else if ka.2 < kb.2 then true
  else if kb.2 < ka.2 then false
  else compareCharList (urlPathname a).data (urlPathname b).data ≤ 0

/-- Specification-level expansion walk, written from the claim: walk the
original links in order; emit a non-book link unless its normalized form was
already emitted; emit a book link followed immediately by its discovered
expansion links sorted by the canonical triple order, skipping any link
whose normalized form was already emitted. -/
def specExpandWalk (jupyterbookURLs : List String) :
    List String → List (List String) → List String → List String
  | [], _queue, _emitted => []
  | l :: rest, queue, emitted =>
    if isBookLink jupyterbookURLs l then
      let step := emitUnique (l :: stableSort specTripleLe (queue.headD [])) emitted
      step.1 ++ specExpandWalk jupyterbookURLs rest queue.tail step.2
    else
      let step := emitUnique [l] emitted
      step.1 ++ specExpandWalk jupyterbookURLs rest queue step.2

/-- Specification-level counterpart of `expandJupyterBookLinks`, from the
claim's words. -/
def specExpandInterleave (sourceLinks jupyterbookURLs : List String)
    (allLinks : List (List String)) : List String :=
  specExpandWalk jupyterbookURLs sourceLinks allLinks []

/-- A discovered expansion link the comparators can handle: it parses as a
URL and its pathname matches the `\/chapters\/(\d+)` pattern (which
`findJupyterBookLinks` guarantees for everything it returns). -/
def expansionLinkOk (link : String) : Bool :=
  (parseUrl link).isSome && (chaptersKey (urlPathname link).data).isSome

/-! ## The context retriever

`GlobalNotebookContextRetrieval` (config-rules.ts lines 367–821).  The
network is abstracted by a `FetchEnv` giving each URL a fetch duration and a
scrape result (`scrapePageText`: `none` for a missing/blocked page).  The
asynchronous constructor is modelled on an explicit timeline of naturals:
the expansion stage (when enabled) runs first and takes `expansionDelay`;
the scraping stage starts when it finishes; the page fetches of one scraping
pass run concurrently, so the stage takes the maximum of their durations.
Because the constructor invokes `this.scrapeSourceLinks()` WITHOUT awaiting
it, `_loadedPromise` resolves when the expansion stage finishes — before the
scraping stage completes; this timing is reproduced faithfully below. -/

/-- The process-wide soft deadline (config-rules.ts line 353). -/
def SOFT_TIMEOUT : Nat := 5000

/-- The abstract network: per-URL fetch duration and scrape result. -/
structure FetchEnv where
  delay : String → Nat
  result : String → Option String

/-- The constructor arguments of `GlobalNotebookContextRetrieval`, with the
source's defaults (config-rules.ts lines 376–387). -/
structure RetrieverConfig where
  sourceLinks : List String := []
  whitelistedURLs : Option (List String) := none
  blacklistedURLs : List String := ["data8.org", "berkeley.edu", "gradescope.com"]
  attemptJupyterbookLinkExpansion : Bool := false
  debug : Bool := false

/-- The retriever's mutable fields touched by the scraping stage. -/
structure RetrieverState where
  sourceLinks : List String
  context : Option String

/-- The whitelist/blacklist filter inside `scrapeSourceLinks`
(config-rules.ts lines 413–426): when the whitelist is non-empty keep only
whitelist matches, then when the blacklist is non-empty drop blacklist
matches (matching = substring containment). -/
def scrapeFilterLinks (whitelistedURLs blacklistedURLs links : List String) : List String :=
  let afterWhitelist :=
    if whitelistedURLs ≠ [] then
      links.filter (fun url => whitelistedURLs.any (fun w => strIncludes url w))
    else links
  if blacklistedURLs ≠ [] then
    afterWhitelist.filter (fun url => !(blacklistedURLs.any (fun b => strIncludes url b)))
  else afterWhitelist

/-- Embedding of `scrapeSourceLinks` (config-rules.ts lines 407–440) as a
state transformer: on an empty stored list set the context to `null`;
otherwise overwrite the stored list with its filtered form, fetch the
surviving links, join the non-null scrape results with blank lines, and
store the joined text (or `null` when it is empty). -/
def scrapeSourceLinks (whitelistedURLs blacklistedURLs : List String) (fetch : FetchEnv)
    (s : RetrieverState) : RetrieverState :=
  if s.sourceLinks.isEmpty then { s with context := none }
  else
    let links := scrapeFilterLinks whitelistedURLs blacklistedURLs s.sourceLinks
    let scrapedTexts := String.intercalate "\n\n" (links.filterMap fetch.result)
    { sourceLinks := links
      context := if scrapedTexts = "" then none else some scrapedTexts }

/-- Model of the synchronous part of `getSourceLinks`: the stored list. -/
def getSourceLinksRead (s : RetrieverState) : List String :=
  s.sourceLinks

/-- One complete constructor run: the configuration, the network, and the
(network-dependent) outcome of the link-expansion stage — its duration and
the link list it leaves behind (on an expansion failure the original list,
per `_expandJupyterBookLinksAsync`). -/
structure RetrieverRun where
  cfg : RetrieverConfig
  fetch : FetchEnv
  expansionDelay : Nat
  expandedLinks : List String

/-- The effective whitelist (`whitelistedURLs ?? []`). -/
def RetrieverRun.whitelist (r : RetrieverRun) : List String :=
  r.cfg.whitelistedURLs.getD []

/-- The stored link list when the scraping stage starts (after the optional
expansion stage; untouched in debug mode, where nothing runs). -/
def RetrieverRun.linksBeforeScrape (r : RetrieverRun) : List String :=
  if r.cfg.attemptJupyterbookLinkExpansion then r.expandedLinks else r.cfg.sourceLinks

/-- The retriever state once the scraping stage has completed. -/
def RetrieverRun.scrapedState (r : RetrieverRun) : RetrieverState :=
  scrapeSourceLinks r.whitelist r.cfg.blacklistedURLs r.fetch
    { sourceLinks := r.linksBeforeScrape, context := none }

/-- Duration of the scraping stage: its fetches run concurrently
(`Promise.all`), so the stage lasts as long as the slowest fetch of the
filtered links (0 when the early empty-list return or an empty filtered list
makes it synchronous). -/
def RetrieverRun.scrapeDuration (r : RetrieverRun) : Nat :=
  if r.linksBeforeScrape.isEmpty then 0
  else
    ((scrapeFilterLinks r.whitelist r.cfg.blacklistedURLs r.linksBeforeScrape).map
      r.fetch.delay).foldr max 0

/-- The instant `_loadedPromise` resolves.  In debug mode the initializer
does nothing.  Otherwise the initializer awaits the expansion stage and then
merely STARTS the scraping stage — `this.scrapeSourceLinks()` carries no
`await` (config-rules.ts line 398) — so the promise resolves when the
expansion stage ends, not when scraping ends. -/
def RetrieverRun.loadedPromiseTime (r : RetrieverRun) : Nat :=
  if r.cfg.debug then 0
  else if r.cfg.attemptJupyterbookLinkExpansion then r.expansionDelay else 0

/-- The instant the scraping stage writes `_context` (`none` in debug mode,
where it never runs). -/
def RetrieverRun.contextSetTime (r : RetrieverRun) : Option Nat :=
  if r.cfg.debug then none
  else some ((if r.cfg.attemptJupyterbookLinkExpansion then r.expansionDelay else 0)
    + r.scrapeDuration)

/-- The instant `_softTimeoutPromise` resolves: the race between
`_loadedPromise` and the 5000 ms timer. -/
def RetrieverRun.softTimeoutTime (r : RetrieverRun) : Nat :=
  min r.loadedPromiseTime SOFT_TIMEOUT

/-- The value of the `_context` field observed at instant `t`. -/
def RetrieverRun.contextAt (r : RetrieverRun) (t : Nat) : Option String :=
  match r.contextSetTime with
  | none => none
  | some ts => if ts ≤ t then r.scrapedState.context else none

/-- Embedding of `getContext(enforcing)` (config-rules.ts lines 442–454):
await `_loadedPromise` (enforcing) or `_softTimeoutPromise`, then return the
current `_context` (the `console.warn` on `null` is side-effect only). -/
def RetrieverRun.getContext (r : RetrieverRun) (enforcing : Bool) : Option String :=
  r.contextAt (if enforcing then r.loadedPromiseTime else r.softTimeoutTime)

/-- The final aggregated scrape result — what the completed background work
eventually stores (`null` when nothing was retrieved). -/
def RetrieverRun.finalRetrievedContext (r : RetrieverRun) : Option String :=
  if r.cfg.debug then none else r.scrapedState.context

/-! ## Concrete instances used by counterexamples and witnesses -/

/-- A retriever constructed with one slow source link (6 s fetch), default
blacklist, no whitelist, expansion disabled, debug off — the spec's
soft-timeout scenario. -/
def slowLinkRun : RetrieverRun :=
  { cfg := { sourceLinks := ["https://example.org/notes"] }
    fetch :=
      { delay := fun _ => 6000
        result := fun url => some ("[LINK] " ++ url ++ " [/LINK]\npage text") }
    expansionDelay := 0
    expandedLinks := [] }

/-- A regex engine whose every call throws (a permanently malformed
pattern); also usable wherever the engine is irrelevant. -/
def failingEngine : RegexEngine :=
  ⟨fun _ _ _ => .error "SyntaxError: invalid regular expression"⟩

/-- A one-cell notebook (so every index other than 0 is out of range). -/
def oneCellNotebook : Notebook :=
  [{ type := "code", source := "", metadata := .nil, outputs := [] }]

/-- A cell context with an empty tag list. -/
def emptyTagsContext : CellContext :=
  { type := "code", text := "", editable := true, tags := [],
    outputText := "", hasError := false }

/-- Leaf predicates: the variants whose evaluation consults the cell
context (everything but `AND`/`OR`/`NOT`/`nearbyCell`). -/
def isContextLeaf : Predicate → Bool
  | .cellType _ => true
  | .output _ => true
  | .hasError _ => true
  | .content _ => true
  | .isEditable _ => true
  | .tags _ => true
  | _ => false

/-- Current config with a dollar character in its note (C3 counterexample
input). -/
def dollarNoteCurrent : RuleConfigOverride :=
  { defaultRuleConfigOverride with instructorNote := "$$" }

/-- Update whose note is the placeholder followed by `!` (C3 counterexample
input). -/
def placeholderUpdate : PartialRuleConfigOverride :=
  { instructorNote := some (priorNotesPlaceholder ++ "!") }

/-- Current config for the C3 witness (no dollar in the note). -/
def fromRuleCurrent : RuleConfigOverride :=
  { defaultRuleConfigOverride with instructorNote := "From rule" }

/-- Update for the C3 witness: placeholder plus addendum, and a key
override. -/
def addendumUpdate : PartialRuleConfigOverride :=
  { chatEnabled := some true
    instructorNote := some (priorNotesPlaceholder ++ " -- cell addendum") }

/-! ## Notebook surgery (comparing runs with and without cell metadata) -/

/-- Remove every field named `key` from a JSON object. -/
def JsonObj.erase : JsonObj → String → JsonObj
  | .nil, _ => .nil
  | .cons k v tl, key => if k = key then tl.erase key else .cons k v (tl.erase key)

/-- Set (`some j`) or remove (`none`) the `jupytutor` metadata entry of a
cell, leaving every other metadata key and all other cell data unchanged. -/
def setCellJupytutor (c : Cell) (v : Option JsonVal) : Cell :=
  { c with
    metadata :=
      match v with
      | none => c.metadata.erase "jupytutor"
      | some j => .cons "jupytutor" j (c.metadata.erase "jupytutor") }

/-- Apply `f` to the cell at position `i` (identity out of range). -/
def modifyCell : Notebook → Nat → (Cell → Cell) → Notebook
  | [], _, _ => []
  | c :: rest, 0, f => f c :: rest
  | c :: rest, n + 1, f => c :: modifyCell rest n f

/-- Set or remove the `jupytutor` metadata of the cell at `cellIndex`. -/
def setNotebookJupytutor (nb : Notebook) (cellIndex : Int) (v : Option JsonVal) : Notebook :=
  if cellIndex < 0 then nb
  else modifyCell nb cellIndex.toNat (fun c => setCellJupytutor c v)

/-- An invalid cell-level `jupytutor` metadata value: not a (non-null,
non-array) object, or an object that fails schema validation as a partial
config. -/
def invalidOverride : JsonVal → Bool
  | .obj fs => (parsePartialRuleConfig fs).isNone
  | _ => true

/-- Well-formedness of URL components, delimiting the scope of the URL
model: a non-empty all-letter scheme, a non-empty host free of `/?#`, a
pathname starting with `/` and free of `?#`, and a query free of `#`
(already-canonical absolute URLs). -/
def urlWf (scheme host pathname : String) (query : Option String) : Bool :=
  decide ((scheme ≠ "" ∧ ∀ c ∈ scheme.data, c.isAlpha = true) ∧
    (host ≠ "" ∧ ∀ c ∈ host.data, c ≠ '/' ∧ c ≠ '?' ∧ c ≠ '#') ∧
    (pathname.data.head? = some '/' ∧ ∀ c ∈ pathname.data, c ≠ '?' ∧ c ≠ '#') ∧
    (∀ c ∈ (query.getD "").data, c ≠ '#'))

/-! ## Output-extraction precedence, claimed and amended -/

/-- The per-item extraction precedence exactly as the claim words it:
`data["text/plain"]` first (joining an array of lines with newline), then a
direct `text` field of the item (same joining rule), then a stringified
`evalue` field, then the whole item serialized. -/
def claimedExtractOutputText (output : JsonVal) : String :=
  match (jsGetField output "data").bind (fun d => jsGetField d "text/plain") with
  | some v => joinLinesOrString v
  | none =>
    match jsGetField output "text" with
    | some v => joinLinesOrString v
    | none =>
      match jsGetField output "evalue" with
      | some v => jsToString v
      | none => jsonStringify output

/-- The amended per-item extraction precedence: a falsy item extracts as the
empty string; otherwise `data["text/plain"]` with a nullish fallback to
`data.text` (inside the data object) comes first, then the item's direct
`text` field, then a stringified `evalue`, then the whole item serialized —
array values joined with newline at the first two steps. -/
def amendedExtractOutputText (output : JsonVal) : String :=
  if jsTruthy output = false then ""
  else
    let fromData :=
      match jsGetField output "data" with
      | some d => nullishCoalesce (jsGetField d "text/plain") (jsGetField d "text")
      | none => none
    match fromData with
    | some v => joinLinesOrString v
    | none =>
      match jsGetField output "text" with
      | some v => joinLinesOrString v
      | none =>
        match jsGetField output "evalue" with
        | some v => jsToString v
        | none => jsonStringify output

/-- An output record carrying both `data.text` (`"A"`) and a top-level
`text` field (`"B"`): the code extracts `"A"`, the claimed precedence
extracts `"B"`. -/
def dataTextOutput : JsonVal :=
  .obj (.cons "data" (.obj (.cons "text" (.str "A") .nil))
    (.cons "text" (.str "B") .nil))

/-- A code cell whose single output is `dataTextOutput`. -/
def dataTextCell : Cell :=
  { type := "code", source := "", metadata := .nil, outputs := [dataTextOutput] }

/-! ## Helper lemmas -/

theorem getSubstitution_no_dollar (m b a : List Char) :
    ∀ l : List Char, (∀ c ∈ l, c.toNat ≠ 36) → getSubstitution m b a l = l := by
  intro l
  induction l with
  | nil => intro _; rfl
  | cons c rest ih =>
    intro h
    have hc : c.toNat ≠ 36 := h c (List.mem_cons_self _ _)
    rw [getSubstitution, if_neg hc, ih (fun x hx => h x (List.mem_cons_of_mem _ hx))]

theorem jsStringReplace_eq_literal (s pat rep : String) (h : noDollar rep = true) :
    jsStringReplace s pat rep = literalReplaceFirst s pat rep := by
  have h' : ∀ c ∈ rep.data, c.toNat ≠ 36 := by
    simpa [noDollar, List.all_eq_true] using h
  unfold jsStringReplace literalReplaceFirst
  cases hs : splitFirstOcc pat.data s.data with
  | none => rfl
  | some ab =>
    obtain ⟨before, after⟩ := ab
    show String.mk (before ++ getSubstitution pat.data before after rep.data ++ after) =
      String.mk (before ++ rep.data ++ after)
    rw [getSubstitution_no_dollar _ _ _ _ h']

theorem scrapeFilterLinks_eq (whitelistedURLs blacklistedURLs l : List String) :
    scrapeFilterLinks whitelistedURLs blacklistedURLs l =
      l.filter (fun url =>
        (whitelistedURLs.isEmpty || whitelistedURLs.any (fun w => strIncludes url w)) &&
        !(blacklistedURLs.any (fun b => strIncludes url b))) := by
  unfold scrapeFilterLinks
  by_cases hw : whitelistedURLs = []
  · subst hw
    by_cases hb : blacklistedURLs = []
    · subst hb; simp
    · simp [hb]
  · have hwe : whitelistedURLs.isEmpty = false := by
      simpa [List.isEmpty_iff] using hw
    by_cases hb : blacklistedURLs = []
    · subst hb
      simp [hw, hwe]
    · simp only [ne_eq, hw, not_false_iff, if_true, hb, List.filter_filter]
      apply List.filter_congr
      intro url _
      simp [hwe, Bool.and_comm]

/-! ## Claim theorems -/

/-- C1 (code bug evaluation): for the spec's own soft-timeout scenario — a
non-debug retriever with one slow (6 s) source link — `getContext(true)`
returns `null` (the pre-scraping state) even though the completed scraping
stage stores the scraped text.  The claim (and the spec) say the enforcing
read awaits full completion and returns the aggregated text; the code's
constructor never awaits `this.scrapeSourceLinks()`, so `_loadedPromise`
resolves before the scrape finishes. -/
theorem getContext_enforcing_observes_prescrape_state :
    slowLinkRun.cfg.debug = false ∧
    slowLinkRun.getContext true = none ∧
    slowLinkRun.finalRetrievedContext =
      some "[LINK] https://example.org/notes [/LINK]\npage text" ∧
    slowLinkRun.getContext true ≠ slowLinkRun.finalRetrievedContext := by
  refine ⟨rfl, by decide, by decide, by decide⟩

/-- C2 (counterexample): `NearbyCell` with an out-of-range target index and
the inner predicate `AND []` evaluates to `true`, not `false` as the claim
states for every inner predicate: the empty conjunction never consults the
(missing) context. -/
theorem nearbyCell_out_of_range_and_empty_true :
    ((oneCellNotebook.length : Int) ≤ 0 + 5) ∧
    evaluatePredicate failingEngine (.nearbyCell 5 (.AND []))
      (cellContextLookup oneCellNotebook) 0 = true := by
  exact ⟨by decide, rfl⟩

/-- C2 (amended): for every inner predicate that consults the cell context
(a leaf variant: `cellType`, `output`, `hasError`, `content`, `isEditable`,
`tags`), evaluating `NearbyCell(offset, inner)` at a current index whose
shifted target lies outside the notebook's cell-index range returns `false`
and never throws (the evaluator is a total function); purely logical inner
predicates such as `AND []` or `NOT` may still evaluate to `true` at the
missing context. -/
theorem nearbyCell_out_of_range_leaf_false (eng : RegexEngine) (nb : Notebook)
    (cellIndex relativePosition : Int) (inner : Predicate)
    (hleaf : isContextLeaf inner = true)
    (hout : cellIndex + relativePosition < 0 ∨
      (nb.length : Int) ≤ cellIndex + relativePosition) :
    evaluatePredicate eng (.nearbyCell relativePosition inner)
      (cellContextLookup nb) cellIndex = false := by
  have hnone : cellContextLookup nb (cellIndex + relativePosition) = none := by
    unfold cellContextLookup
    exact if_pos hout
  cases inner <;> simp_all [evaluatePredicate, isContextLeaf]

/-- C2 (witness): the amended theorem applied to a concrete leaf inner
predicate at a concrete out-of-range offset. -/
theorem nearbyCell_out_of_range_leaf_false_witness :
    evaluatePredicate failingEngine (.nearbyCell 5 (.content (.lit "x")))
      (cellContextLookup oneCellNotebook) 0 = false :=
  nearbyCell_out_of_range_leaf_false failingEngine oneCellNotebook 0 5
    (.content (.lit "x")) (by decide) (Or.inr (by decide))

/-- C3 (counterexample): merging is not literal substitution.  With
`current.instructorNote = "$$"` and
`update.instructorNote = "{{prior_notes}}!"`, the claim's literal
substitution predicts `"$$!"`, but the code uses JavaScript
`String.prototype.replace`, which interprets `$$` in the replacement string
as a single dollar, producing `"$!"`. -/
theorem mergeRuleConfigs_dollar_counterexample :
    literalReplaceFirst (priorNotesPlaceholder ++ "!") priorNotesPlaceholder
      dollarNoteCurrent.instructorNote = "$$!" ∧
    (mergeRuleConfigs dollarNoteCurrent placeholderUpdate).instructorNote = "$!" ∧
    ("$!" : String) ≠ "$$!" := by
  refine ⟨by decide, by decide, by decide⟩

/-- C3 (amended): in `merge(current, update)` every key present in `update`
replaces the corresponding key of `current`; for `instructorNote`, when
`update.instructorNote` contains `{{prior_notes}}` the token is substituted
by `current.instructorNote` through JavaScript `String.replace` semantics —
which is the literal first-occurrence substitution whenever
`current.instructorNote` contains no dollar character (otherwise `$`
sequences are interpreted) — and when present without the token it replaces
outright. -/
theorem mergeRuleConfigs_update_wins (current : RuleConfigOverride)
    (update : PartialRuleConfigOverride)
    (h : noDollar current.instructorNote = true) :
    (mergeRuleConfigs current update).chatEnabled =
      update.chatEnabled.getD current.chatEnabled ∧
    (mergeRuleConfigs current update).chatProactive =
      update.chatProactive.getD current.chatProactive ∧
    (mergeRuleConfigs current update).quickResponses =
      update.quickResponses.getD current.quickResponses ∧
    (mergeRuleConfigs current update).instructorNote =
      (match update.instructorNote with
      | none => current.instructorNote
      | some s =>
        if strIncludes s priorNotesPlaceholder then
          literalReplaceFirst s priorNotesPlaceholder current.instructorNote
        else s) := by
  refine ⟨rfl, rfl, rfl, ?_⟩
  cases hs : update.instructorNote with
  | none => simp [mergeRuleConfigs, hs]
  | some s =>
    by_cases hinc : strIncludes s priorNotesPlaceholder = true
    · simp [mergeRuleConfigs, hs, hinc,
        jsStringReplace_eq_literal s priorNotesPlaceholder current.instructorNote h]
    · simp [mergeRuleConfigs, hs, hinc]

/-- C3 (witness): the amended theorem instantiated at the spec's
placeholder example (`"From rule"` + `"{{prior_notes}} -- cell addendum"`),
together with a plain key replacement. -/
theorem mergeRuleConfigs_update_wins_witness :
    (mergeRuleConfigs fromRuleCurrent addendumUpdate).chatEnabled = true ∧
    (mergeRuleConfigs fromRuleCurrent addendumUpdate).instructorNote =
      "From rule -- cell addendum" := by
  obtain ⟨h1, _, _, h4⟩ :=
    mergeRuleConfigs_update_wins fromRuleCurrent addendumUpdate (by decide)
  refine ⟨by rw [h1]; rfl, by rw [h4]; decide⟩

/-- C8: an empty `AND` evaluates to `true` (vacuous conjunction), an empty
`OR` evaluates to `false` (vacuous disjunction), and a `Tags {all: matcher}`
predicate on a cell whose tag list is empty evaluates to `true`, for every
engine, context lookup and index. -/
theorem empty_and_or_tags_all_vacuous (eng : RegexEngine)
    (contextForIndex : Int → Option CellContext) (cellIndex : Int) :
    evaluatePredicate eng (.AND []) contextForIndex cellIndex = true ∧
    evaluatePredicate eng (.OR []) contextForIndex cellIndex = false ∧
    (∀ (context : CellContext) (m : StrMatch),
      contextForIndex cellIndex = some context → context.tags = [] →
      evaluatePredicate eng (.tags (.all m)) contextForIndex cellIndex = true) := by
  refine ⟨rfl, rfl, ?_⟩
  intro context m hsome htags
  simp [evaluatePredicate, hsome, evaluateArrayPredicate, htags]

/-- C8 (witness): the vacuity theorem applied to a concrete lookup whose
cell has no tags. -/
theorem empty_and_or_tags_all_vacuous_witness :
    evaluatePredicate failingEngine (.AND [])
      (fun _ => some emptyTagsContext) 0 = true ∧
    evaluatePredicate failingEngine (.OR [])
      (fun _ => some emptyTagsContext) 0 = false ∧
    evaluatePredicate failingEngine (.tags (.all (.lit "graded")))
      (fun _ => some emptyTagsContext) 0 = true := by
  obtain ⟨h1, h2, h3⟩ :=
    empty_and_or_tags_all_vacuous failingEngine (fun _ => some emptyTagsContext) 0
  exact ⟨h1, h2, h3 emptyTagsContext (.lit "graded") rfl rfl⟩

/-- C9: when the engine throws for the given pattern/flags on every subject
(a pattern that fails to compile), a `matchesRegex` string matcher is a
non-match for every value, and a predicate built from it evaluates to
`false` without any error reaching the caller of `evaluatePredicate` (the
evaluator is a total function; the `try/catch` absorbs the throw). -/
theorem regex_compile_failure_non_match (eng : RegexEngine)
    (pattern : String) (flags : Option String)
    (hfail : ∀ v : String, ∃ msg, eng.exec pattern (flags.getD "") v = .error msg) :
    (∀ value, evaluateStringPredicate eng value (.matchesRegex pattern flags) = false) ∧
    (∀ (contextForIndex : Int → Option CellContext) (cellIndex : Int),
      evaluatePredicate eng (.content (.matchesRegex pattern flags))
        contextForIndex cellIndex = false) := by
  have hstr : ∀ value,
      evaluateStringPredicate eng value (.matchesRegex pattern flags) = false := by
    intro value
    obtain ⟨msg, hm⟩ := hfail value
    simp [evaluateStringPredicate, hm]
  refine ⟨hstr, ?_⟩
  intro contextForIndex cellIndex
  cases hctx : contextForIndex cellIndex with
  | none => simp [evaluatePredicate, hctx]
  | some context => simp [evaluatePredicate, hctx, hstr]

/-- C9 (witness): the fail-closed theorem applied to an always-throwing
engine (a malformed pattern such as an unclosed bracket). -/
theorem regex_compile_failure_non_match_witness :
    evaluateStringPredicate failingEngine "anything"
      (.matchesRegex "[unclosed" none) = false ∧
    evaluatePredicate failingEngine (.content (.matchesRegex "[unclosed" none))
      (fun _ => some emptyTagsContext) 0 = false := by
  obtain ⟨h1, h2⟩ := regex_compile_failure_non_match failingEngine "[unclosed" none
    (fun v => ⟨_, rfl⟩)
  exact ⟨h1 "anything", h2 (fun _ => some emptyTagsContext) 0⟩

/-- C10: the scraping stage overwrites the retriever's stored source-link
list with its filtered form — keeping exactly the links that match some
whitelist entry (vacuously all of them when the whitelist is empty) and
match no blacklist entry — and a later `getSourceLinks` read returns that
surviving filtered list. -/
theorem scrapeSourceLinks_mutates_stored_links (whitelistedURLs blacklistedURLs : List String)
    (fetch : FetchEnv) (s : RetrieverState) :
    (scrapeSourceLinks whitelistedURLs blacklistedURLs fetch s).sourceLinks =
      s.sourceLinks.filter (fun url =>
        (whitelistedURLs.isEmpty || whitelistedURLs.any (fun w => strIncludes url w)) &&
        !(blacklistedURLs.any (fun b => strIncludes url b))) ∧
    getSourceLinksRead (scrapeSourceLinks whitelistedURLs blacklistedURLs fetch s) =
      (scrapeSourceLinks whitelistedURLs blacklistedURLs fetch s).sourceLinks := by
  refine ⟨?_, rfl⟩
  unfold scrapeSourceLinks
  by_cases he : s.sourceLinks.isEmpty
  · rw [if_pos he]
    rw [List.isEmpty_iff] at he
    simp [he]
  · rw [if_neg he]
    exact scrapeFilterLinks_eq whitelistedURLs blacklistedURLs s.sourceLinks

theorem JsonObj.lookup_erase_self : ∀ (fs : JsonObj) (key : String),
    (fs.erase key).lookup key = none
  | .nil, _ => rfl
  | .cons k v tl, key => by
    unfold JsonObj.erase
    by_cases h : k = key
    · rw [if_pos h]
      exact lookup_erase_self tl key
    · rw [if_neg h]
      unfold JsonObj.lookup
      rw [if_neg h]
      exact lookup_erase_self tl key

theorem JsonObj.lookup_erase_ne : ∀ (fs : JsonObj) (key k : String), k ≠ key →
    (fs.erase key).lookup k = fs.lookup k
  | .nil, _, _, _ => rfl
  | .cons k2 v tl, key, k, h => by
    unfold JsonObj.erase
    by_cases hk : k2 = key
    · rw [if_pos hk, lookup_erase_ne tl key k h]
      conv_rhs => unfold JsonObj.lookup
      rw [if_neg (fun hkk : k2 = k => h (hkk ▸ hk))]
    · rw [if_neg hk]
      unfold JsonObj.lookup
      by_cases hkk : k2 = k
      · rw [if_pos hkk, if_pos hkk]
      · rw [if_neg hkk, if_neg hkk]
        exact lookup_erase_ne tl key k h

theorem getMetadata_setCellJupytutor (c : Cell) (v : Option JsonVal) (k : String)
    (h : k ≠ "jupytutor") :
    (setCellJupytutor c v).getMetadata k = c.getMetadata k := by
  cases v with
  | none =>
    show JsonObj.lookup (c.metadata.erase "jupytutor") k = JsonObj.lookup c.metadata k
    exact JsonObj.lookup_erase_ne c.metadata "jupytutor" k h
  | some j =>
    show JsonObj.lookup (.cons "jupytutor" j (c.metadata.erase "jupytutor")) k =
      JsonObj.lookup c.metadata k
    conv_lhs => unfold JsonObj.lookup
    rw [if_neg (fun hj : "jupytutor" = k => h hj.symm)]
    exact JsonObj.lookup_erase_ne c.metadata "jupytutor" k h

theorem buildCellContext_setCellJupytutor (c : Cell) (v : Option JsonVal) :
    buildCellContext (setCellJupytutor c v) = buildCellContext c := by
  have h1 : (setCellJupytutor c v).getMetadata "editable" = c.getMetadata "editable" :=
    getMetadata_setCellJupytutor c v "editable" (by decide)
  have h2 : (setCellJupytutor c v).getMetadata "tags" = c.getMetadata "tags" :=
    getMetadata_setCellJupytutor c v "tags" (by decide)
  have ht : (setCellJupytutor c v).type = c.type := rfl
  have hs : (setCellJupytutor c v).source = c.source := rfl
  have ho : (setCellJupytutor c v).outputs = c.outputs := rfl
  simp only [buildCellContext, h1, h2, ht, hs, ho]

theorem modifyCell_length (nb : Notebook) (n : Nat) (f : Cell → Cell) :
    (modifyCell nb n f).length = nb.length := by
  induction nb generalizing n with
  | nil => rfl
  | cons c rest ih =>
    cases n with
    | zero => rfl
    | succ m => simp [modifyCell, ih]

theorem modifyCell_get_self (nb : Notebook) (n : Nat) (f : Cell → Cell) :
    (modifyCell nb n f).get? n = (nb.get? n).map f := by
  induction nb generalizing n with
  | nil => cases n <;> rfl
  | cons c rest ih =>
    cases n with
    | zero => rfl
    | succ m => simpa [modifyCell] using ih m

theorem modifyCell_get_ne (nb : Notebook) (n m : Nat) (f : Cell → Cell) (h : m ≠ n) :
    (modifyCell nb n f).get? m = nb.get? m := by
  induction nb generalizing n m with
  | nil => cases n <;> rfl
  | cons c rest ih =>
    cases n with
    | zero =>
      cases m with
      | zero => exact absurd rfl h
      | succ m2 => rfl
    | succ n2 =>
      cases m with
      | zero => rfl
      | succ m2 => simpa [modifyCell] using ih n2 m2 (fun he => h (by rw [he]))

theorem cellContextLookup_congr (nb1 nb2 : Notebook) (hlen : nb1.length = nb2.length)
    (hctx : ∀ n : Nat, (nb1.get? n).map buildCellContext = (nb2.get? n).map buildCellContext) :
    cellContextLookup nb1 = cellContextLookup nb2 := by
  funext idx
  unfold cellContextLookup cellsGet
  rw [hlen]
  by_cases h : idx < 0 ∨ (nb2.length : Int) ≤ idx
  · rw [if_pos h, if_pos h]
  · rw [if_neg h, if_neg h]
    have h1 : ¬ idx < 0 := fun hh => h (Or.inl hh)
    rw [if_neg h1, if_neg h1]
    exact hctx idx.toNat

theorem cellContextLookup_setNotebookJupytutor (nb : Notebook) (i : Int)
    (x y : Option JsonVal) :
    cellContextLookup (setNotebookJupytutor nb i x) =
      cellContextLookup (setNotebookJupytutor nb i y) := by
  by_cases hi : i < 0
  · unfold setNotebookJupytutor
    rw [if_pos hi, if_pos hi]
  · apply cellContextLookup_congr
    · unfold setNotebookJupytutor
      rw [if_neg hi, if_neg hi, modifyCell_length, modifyCell_length]
    · intro n
      unfold setNotebookJupytutor
      rw [if_neg hi, if_neg hi]
      by_cases hn : n = i.toNat
      · subst hn
        rw [modifyCell_get_self, modifyCell_get_self]
        cases nb.get? i.toNat with
        | none => rfl
        | some c => simp [buildCellContext_setCellJupytutor]
      · rw [modifyCell_get_ne nb i.toNat n _ hn, modifyCell_get_ne nb i.toNat n _ hn]

theorem cellsGet_setNotebookJupytutor (nb : Notebook) (i : Int) (w : Option JsonVal) :
    cellsGet (setNotebookJupytutor nb i w) i =
      (cellsGet nb i).map (fun c => setCellJupytutor c w) := by
  unfold cellsGet setNotebookJupytutor
  by_cases hi : i < 0
  · rw [if_pos hi, if_pos hi]
    rfl
  · rw [if_neg hi, if_neg hi, if_neg hi]
    exact modifyCell_get_self nb i.toNat _

theorem getMetadata_setCellJupytutor_self (c : Cell) (j : JsonVal) :
    (setCellJupytutor c (some j)).getMetadata "jupytutor" = some j := by
  show JsonObj.lookup (.cons "jupytutor" j (c.metadata.erase "jupytutor")) "jupytutor" = some j
  unfold JsonObj.lookup
  rw [if_pos rfl]

theorem getMetadata_eraseCellJupytutor (c : Cell) :
    (setCellJupytutor c none).getMetadata "jupytutor" = none :=
  JsonObj.lookup_erase_self c.metadata "jupytutor"

/-- C4: a cell whose `jupytutor` metadata is invalid — not a non-null,
non-array object, or failing schema validation as a partial config — yields
exactly the same resolved configuration as the same cell with no `jupytutor`
metadata at all: no key of the invalid override is applied, and the
notebook-rule result stands. -/
theorem invalid_cell_override_ignored (eng : RegexEngine) (nb : Notebook)
    (cellIndex : Int) (configRules : List Rule) (v : JsonVal)
    (hinv : invalidOverride v = true) :
    applyConfigRules eng (setNotebookJupytutor nb cellIndex (some v)) cellIndex configRules =
      applyConfigRules eng (setNotebookJupytutor nb cellIndex none) cellIndex configRules := by
  unfold applyConfigRules
  rw [cellContextLookup_setNotebookJupytutor nb cellIndex (some v) none]
  rw [cellsGet_setNotebookJupytutor nb cellIndex (some v),
    cellsGet_setNotebookJupytutor nb cellIndex none]
  cases hc : cellsGet nb cellIndex with
  | none => rfl
  | some c =>
    cases v with
    | obj fs =>
      have hp : parsePartialRuleConfig fs = none := Option.isNone_iff_eq_none.mp hinv
      simp only [Option.map_some', getMetadata_setCellJupytutor_self,
        getMetadata_eraseCellJupytutor, hp]
    | null =>
      simp only [Option.map_some', getMetadata_setCellJupytutor_self,
        getMetadata_eraseCellJupytutor]
    | bool b =>
      simp only [Option.map_some', getMetadata_setCellJupytutor_self,
        getMetadata_eraseCellJupytutor]
    | num n =>
      simp only [Option.map_some', getMetadata_setCellJupytutor_self,
        getMetadata_eraseCellJupytutor]
    | str s =>
      simp only [Option.map_some', getMetadata_setCellJupytutor_self,
        getMetadata_eraseCellJupytutor]
    | arr xs =>
      simp only [Option.map_some', getMetadata_setCellJupytutor_self,
        getMetadata_eraseCellJupytutor]

/-- C4 (witness): the theorem applied to a one-cell notebook whose cell
carries the spec's example of invalid metadata (`jupytutor: "not an
object"`). -/
theorem invalid_cell_override_ignored_witness :
    applyConfigRules failingEngine
      (setNotebookJupytutor oneCellNotebook 0 (some (.str "not an object"))) 0 [] =
      applyConfigRules failingEngine (setNotebookJupytutor oneCellNotebook 0 none) 0 [] :=
  invalid_cell_override_ignored failingEngine oneCellNotebook 0 [] (.str "not an object") rfl

theorem extractOutputText_eq_amended (output : JsonVal) :
    extractOutputText output = amendedExtractOutputText output := by
  cases output with
  | null => rfl
  | bool b => rfl
  | num n => rfl
  | str s => rfl
  | arr xs => rfl
  | obj fs =>
    cases hd : fs.lookup "data" with
    | none =>
      simp only [extractOutputText, amendedExtractOutputText, jsGetField, hd]
    | some d =>
      cases d <;>
        simp only [extractOutputText, amendedExtractOutputText, jsGetField, hd,
          nullishCoalesce]

/-- C7 (counterexample): an output item carrying both `data.text = "A"` and
a top-level `text = "B"` field.  The code's first step is
`data['text/plain'] ?? data.text`, so the built context's `outputText` is
`"A"`, while the claim's stated precedence (`data["text/plain"]`, then the
direct `text` field) yields `"B"`. -/
theorem outputText_precedence_counterexample :
    (buildCellContext dataTextCell).outputText = "A" ∧
    String.intercalate "\n"
      ((dataTextCell.outputs.map claimedExtractOutputText).filter (fun s => s ≠ "")) = "B" ∧
    ("A" : String) ≠ "B" := by
  refine ⟨by decide, by decide, by decide⟩

/-- C7 (amended): for every code cell, the built context's `outputText` is
the newline join of the per-item extracted texts after dropping empty
(falsy) entries, where per-item extraction yields `""` for a falsy item and
otherwise takes `data["text/plain"]` with a nullish fallback to `data.text`
first (joining an array of lines with newline), then the item's direct
`text` field (same joining rule), then a stringified `evalue` field, then
the whole item serialized as a fallback string. -/
theorem code_cell_outputText_extraction (c : Cell) (hcode : c.type = "code") :
    (buildCellContext c).outputText =
      String.intercalate "\n"
        ((c.outputs.map amendedExtractOutputText).filter (fun s => s ≠ "")) := by
  have hfun : extractOutputText = amendedExtractOutputText :=
    funext extractOutputText_eq_amended
  show (if (if c.type = "code" then "code"
      else if c.type = "markdown" then "markdown" else "unknown") = "code" then
    extractOutputsAsText c.outputs else "") = _
  rw [hcode]
  show extractOutputsAsText c.outputs = _
  unfold extractOutputsAsText
  rw [hfun]

/-- C7 (witness): the amended theorem applied to the concrete code cell
`dataTextCell`. -/
theorem code_cell_outputText_extraction_witness :
    (buildCellContext dataTextCell).outputText =
      String.intercalate "\n"
        ((dataTextCell.outputs.map amendedExtractOutputText).filter (fun s => s ≠ "")) :=
  code_cell_outputText_extraction dataTextCell rfl

theorem charPrefixOf_append (p b : List Char) : charPrefixOf p (p ++ b) = true := by
  induction p with
  | nil => rfl
  | cons x xs ih => simp [charPrefixOf, ih]

theorem splitFirstOcc_boundary (p0 : Char) (pr : List Char) :
    ∀ (a b : List Char), (∀ c ∈ a, c ≠ p0) →
      splitFirstOcc (p0 :: pr) (a ++ (p0 :: pr) ++ b) = some (a, b) := by
  intro a
  induction a with
  | nil =>
    intro b _
    show splitFirstOcc (p0 :: pr) (p0 :: (pr ++ b)) = some ([], b)
    have hpre : charPrefixOf (p0 :: pr) (p0 :: (pr ++ b)) = true := charPrefixOf_append _ _
    unfold splitFirstOcc
    rw [if_pos hpre]
    simp [List.drop_left' (by simp : (p0 :: pr).length = pr.length + 1)]
  | cons c a2 ih =>
    intro b ha
    have hc : c ≠ p0 := ha c (List.mem_cons_self _ _)
    show splitFirstOcc (p0 :: pr) (c :: (a2 ++ (p0 :: pr) ++ b)) = some (c :: a2, b)
    have hnp : charPrefixOf (p0 :: pr) (c :: (a2 ++ (p0 :: pr) ++ b)) = false := by
      unfold charPrefixOf
      have : (p0 == c) = false := by
        simp [beq_iff_eq]
        exact fun he => hc he.symm
      simp [this]
    unfold splitFirstOcc
    rw [if_neg (by rw [hnp]; simp)]
    rw [ih b (fun x hx => ha x (List.mem_cons_of_mem _ hx))]

theorem splitOnFirst_not_mem (ch : Char) :
    ∀ l : List Char, (∀ c ∈ l, c ≠ ch) → splitOnFirst ch l = none := by
  intro l
  induction l with
  | nil => intro _; rfl
  | cons c rest ih =>
    intro h
    have hc : c ≠ ch := h c (List.mem_cons_self _ _)
    unfold splitOnFirst
    rw [if_neg hc, ih (fun x hx => h x (List.mem_cons_of_mem _ hx))]

theorem splitOnFirst_boundary (ch : Char) :
    ∀ (a b : List Char), (∀ c ∈ a, c ≠ ch) →
      splitOnFirst ch (a ++ ch :: b) = some (a, b) := by
  intro a
  induction a with
  | nil =>
    intro b _
    show splitOnFirst ch (ch :: b) = some ([], b)
    unfold splitOnFirst
    rw [if_pos rfl]
  | cons c a2 ih =>
    intro b h
    have hc : c ≠ ch := h c (List.mem_cons_self _ _)
    show splitOnFirst ch (c :: (a2 ++ ch :: b)) = some (c :: a2, b)
    unfold splitOnFirst
    rw [if_neg hc, ih b (fun x hx => h x (List.mem_cons_of_mem _ hx))]

theorem parseUrl_href (scheme host pathname : String) (query frag : Option String)
    (h : urlWf scheme host pathname query = true) :
    parseUrl (JsUrl.href ⟨scheme, host, pathname, query, frag⟩) =
      some ⟨scheme, host, pathname, query, frag⟩ := by
  obtain ⟨⟨hs0, hsA⟩, ⟨hh0, hH⟩, ⟨hpH, hP⟩, hQ⟩ := of_decide_eq_true h
  have hcolon : ∀ c ∈ scheme.data, c ≠ ':' := by
    intro c hc he
    have := hsA c hc
    rw [he] at this
    exact absurd this (by decide)
  have hschemeNe : scheme.data ≠ [] := by
    intro he
    exact hs0 (String.ext (he.trans rfl))
  have hhostNe : host.data ≠ [] := by
    intro he
    exact hh0 (String.ext (he.trans rfl))
  have hguard : ¬ (scheme.data = [] ∨ ¬ (scheme.data.all (fun c => c.isAlpha) = true)) := by
    intro hor
    cases hor with
    | inl he => exact hschemeNe he
    | inr hn => exact hn (List.all_eq_true.mpr hsA)
  obtain ⟨ptail, hpdata⟩ : ∃ t, pathname.data = '/' :: t := by
    cases hp : pathname.data with
    | nil => rw [hp] at hpH; cases hpH
    | cons c t =>
      rw [hp] at hpH
      simp only [List.head?_cons, Option.some_inj] at hpH
      exact ⟨t, by rw [hpH]⟩
  have hmkpath : String.mk ('/' :: ptail) = pathname := by
    rw [← hpdata]
  have hHslash : ∀ c ∈ host.data, c ≠ '/' := fun c hc => (hH c hc).1
  have hHP_noq : ∀ c ∈ host.data ++ pathname.data, c ≠ '?' := by
    intro c hc
    rcases List.mem_append.mp hc with hm | hm
    · exact (hH c hm).2.1
    · exact (hP c hm).1
  have hHP_nohash : ∀ c ∈ host.data ++ pathname.data, c ≠ '#' := by
    intro c hc
    rcases List.mem_append.mp hc with hm | hm
    · exact (hH c hm).2.2
    · exact (hP c hm).2
  cases query with
  | none =>
    cases frag with
    | none =>
      have e1 : (JsUrl.href ⟨scheme, host, pathname, none, none⟩).data =
          scheme.data ++ (':' :: ['/', '/']) ++ (host.data ++ pathname.data) := by
        simp [JsUrl.href, List.append_assoc]
      unfold parseUrl
      rw [show "://".data = ':' :: ['/', '/'] from rfl, e1,
        splitFirstOcc_boundary ':' ['/', '/'] scheme.data (host.data ++ pathname.data) hcolon]
      dsimp only
      rw [if_neg hguard]
      rw [splitOnFirst_not_mem '#' _ hHP_nohash]
      dsimp only
      rw [splitOnFirst_not_mem '?' _ hHP_noq]
      dsimp only
      rw [hpdata, splitOnFirst_boundary '/' host.data ptail hHslash]
      dsimp only
      rw [if_neg hhostNe]
      rw [hmkpath]
    | some f =>
      have e1 : (JsUrl.href ⟨scheme, host, pathname, none, some f⟩).data =
          scheme.data ++ (':' :: ['/', '/']) ++
            ((host.data ++ pathname.data) ++ '#' :: f.data) := by
        simp [JsUrl.href, List.append_assoc]
      unfold parseUrl
      rw [show "://".data = ':' :: ['/', '/'] from rfl, e1,
        splitFirstOcc_boundary ':' ['/', '/'] scheme.data _ hcolon]
      dsimp only
      rw [if_neg hguard]
      rw [splitOnFirst_boundary '#' (host.data ++ pathname.data) f.data hHP_nohash]
      dsimp only
      rw [splitOnFirst_not_mem '?' _ hHP_noq]
      dsimp only
      rw [hpdata, splitOnFirst_boundary '/' host.data ptail hHslash]
      dsimp only
      rw [if_neg hhostNe]
      rw [hmkpath]
  | some q =>
    have hQ' : ∀ c ∈ q.data, c ≠ '#' := hQ
    have hA_noq : ∀ c ∈ host.data ++ pathname.data, c ≠ '?' := hHP_noq
    have hAq_nohash : ∀ c ∈ (host.data ++ pathname.data) ++ '?' :: q.data, c ≠ '#' := by
      intro c hc
      rcases List.mem_append.mp hc with hm | hm
      · exact hHP_nohash c hm
      · rcases List.mem_cons.mp hm with he | hm2
        · rw [he]; decide
        · exact hQ' c hm2
    cases frag with
    | none =>
      have e1 : (JsUrl.href ⟨scheme, host, pathname, some q, none⟩).data =
          scheme.data ++ (':' :: ['/', '/']) ++
            ((host.data ++ pathname.data) ++ '?' :: q.data) := by
        simp [JsUrl.href, List.append_assoc]
      unfold parseUrl
      rw [show "://".data = ':' :: ['/', '/'] from rfl, e1,
        splitFirstOcc_boundary ':' ['/', '/'] scheme.data _ hcolon]
      dsimp only
      rw [if_neg hguard]
      rw [splitOnFirst_not_mem '#' _ hAq_nohash]
      dsimp only
      rw [splitOnFirst_boundary '?' (host.data ++ pathname.data) q.data hA_noq]
      dsimp only
      rw [hpdata, splitOnFirst_boundary '/' host.data ptail hHslash]
      dsimp only
      rw [if_neg hhostNe]
      rw [hmkpath]
    | some f =>
      have e1 : (JsUrl.href ⟨scheme, host, pathname, some q, some f⟩).data =
          scheme.data ++ (':' :: ['/', '/']) ++
            (((host.data ++ pathname.data) ++ '?' :: q.data) ++ '#' :: f.data) := by
        simp [JsUrl.href, List.append_assoc]
      unfold parseUrl
      rw [show "://".data = ':' :: ['/', '/'] from rfl, e1,
        splitFirstOcc_boundary ':' ['/', '/'] scheme.data _ hcolon]
      dsimp only
      rw [if_neg hguard]
      rw [splitOnFirst_boundary '#' ((host.data ++ pathname.data) ++ '?' :: q.data)
        f.data hAq_nohash]
      dsimp only
      rw [splitOnFirst_boundary '?' (host.data ++ pathname.data) q.data hA_noq]
      dsimp only
      rw [hpdata, splitOnFirst_boundary '/' host.data ptail hHslash]
      dsimp only
      rw [if_neg hhostNe]
      rw [hmkpath]

/-- C6: for every well-formed URL (non-empty all-letter scheme, non-empty
host without `/?#`, `/`-rooted path without `?#`, query without `#`), the
dedup-key normalization removes the hash fragment and applies the single
trailing-slash strip to the non-root path, and leaves everything else —
scheme, host, the path's characters and case, and the query string —
untouched; the root path `"/"` is unaffected by the strip. -/
theorem normalizeUrl_strips_hash_and_slash (scheme host pathname : String)
    (query frag : Option String) (h : urlWf scheme host pathname query = true) :
    normalizeUrl (JsUrl.href ⟨scheme, host, pathname, query, frag⟩) =
      JsUrl.href ⟨scheme, host, stripTrailingSlash pathname, query, none⟩ := by
  unfold normalizeUrl
  rw [parseUrl_href scheme host pathname query frag h]

/-- C6 (witness): the spec's examples — `https://site.com/a/` and
`https://site.com/a#frag` normalize to the same key `https://site.com/a`,
and the root `https://site.com/` is unaffected. -/
theorem normalizeUrl_strips_hash_and_slash_witness :
    normalizeUrl "https://site.com/a/" = "https://site.com/a" ∧
    normalizeUrl "https://site.com/a#frag" = "https://site.com/a" ∧
    normalizeUrl "https://site.com/" = "https://site.com/" := by
  refine ⟨?_, ?_, ?_⟩
  · rw [show ("https://site.com/a/" : String) =
      JsUrl.href ⟨"https", "site.com", "/a/", none, none⟩ from rfl]
    rw [normalizeUrl_strips_hash_and_slash "https" "site.com" "/a/" none none (by decide)]
    decide
  · rw [show ("https://site.com/a#frag" : String) =
      JsUrl.href ⟨"https", "site.com", "/a", none, some "frag"⟩ from rfl]
    rw [normalizeUrl_strips_hash_and_slash "https" "site.com" "/a" none (some "frag")
      (by decide)]
    decide
  · rw [show ("https://site.com/" : String) =
      JsUrl.href ⟨"https", "site.com", "/", none, none⟩ from rfl]
    rw [normalizeUrl_strips_hash_and_slash "https" "site.com" "/" none none (by decide)]
    decide

theorem stableSort_pairwise_eq_self (le : String → String → Bool) :
    ∀ l : List String, l.Pairwise (fun a b => le a b = true) → stableSort le l = l
  | [], _ => rfl
  | a :: rest, hp => by
    obtain ⟨ha, hrest⟩ := List.pairwise_cons.mp hp
    show stableInsert le a (stableSort le rest) = a :: rest
    rw [stableSort_pairwise_eq_self le rest hrest]
    cases rest with
    | nil => rfl
    | cons b bs =>
      unfold stableInsert
      rw [if_pos (ha b (List.mem_cons_self _ _))]

theorem specTripleLe_imp_expandSortLe (a b : String)
    (ha : expansionLinkOk a = true) (hb : expansionLinkOk b = true)
    (hle : specTripleLe a b = true) : expandSortLe a b = true := by
  have ha2 : (chaptersKey (urlPathname a).data).isSome = true := by
    have := ha
    simp only [expansionLinkOk, Bool.and_eq_true] at this
    exact this.2
  have hb2 : (chaptersKey (urlPathname b).data).isSome = true := by
    have := hb
    simp only [expansionLinkOk, Bool.and_eq_true] at this
    exact this.2
  obtain ⟨ka, hka⟩ := Option.isSome_iff_exists.mp ha2
  obtain ⟨kb, hkb⟩ := Option.isSome_iff_exists.mp hb2
  obtain ⟨ca, sa⟩ := ka
  obtain ⟨cb, sb⟩ := kb
  unfold specTripleLe at hle
  rw [hka, hkb] at hle
  simp only [Option.getD_some] at hle
  unfold expandSortLe expandSortCompare
  dsimp only
  rw [hka, hkb]
  dsimp only
  simp only [decide_eq_true_eq]
  split_ifs at hle ⊢ <;> omega

theorem contains_cons_of_contains (n z : String) (seen : List String)
    (h : seen.contains z = true) : (n :: seen).contains z = true := by
  simp only [List.contains_cons, Bool.or_eq_true]
  exact Or.inr h

theorem emitUnique_filter (p : String → Bool) :
    ∀ (l seen : List String),
      (∀ x ∈ l, p x = false → seen.contains (normalizeUrl x) = true) →
      emitUnique (l.filter p) seen = emitUnique l seen
  | [], _seen, _ => rfl
  | x :: rest, seen, h => by
    cases hpx : p x with
    | true =>
      rw [List.filter_cons_of_pos hpx]
      show emitUnique (x :: rest.filter p) seen = emitUnique (x :: rest) seen
      unfold emitUnique
      dsimp only
      by_cases hc : seen.contains (normalizeUrl x) = true
      · rw [if_pos hc, if_pos hc,
          emitUnique_filter p rest seen (fun y hy hpy => h y (List.mem_cons_of_mem _ hy) hpy)]
      · rw [if_neg hc, if_neg hc,
          emitUnique_filter p rest (normalizeUrl x :: seen)
            (fun y hy hpy =>
              contains_cons_of_contains _ _ _ (h y (List.mem_cons_of_mem _ hy) hpy))]
    | false =>
      rw [List.filter_cons_of_neg (by simp [hpx])]
      have hcx : seen.contains (normalizeUrl x) = true := h x (List.mem_cons_self _ _) hpx
      conv_rhs => unfold emitUnique
      dsimp only
      rw [if_pos hcx,
        emitUnique_filter p rest seen (fun y hy hpy => h y (List.mem_cons_of_mem _ hy) hpy)]

theorem getD_forall_of_forall {P : String → Prop} (allLinks : List (List String)) (i : Nat)
    (h : ∀ ls ∈ allLinks, ∀ x ∈ ls, P x) : ∀ x ∈ allLinks.getD i [], P x := by
  rw [List.getD_eq_get?]
  cases hg : allLinks.get? i with
  | none =>
    intro x hx
    simp at hx
  | some ls =>
    intro x hx
    exact h ls (List.get?_mem hg) x (by simpa using hx)

theorem getD_pairwise_of_forall {R : String → String → Prop}
    (allLinks : List (List String)) (i : Nat)
    (h : ∀ ls ∈ allLinks, List.Pairwise R ls) : List.Pairwise R (allLinks.getD i []) := by
  rw [List.getD_eq_get?]
  cases hg : allLinks.get? i with
  | none => exact List.Pairwise.nil
  | some ls => simpa using h ls (List.get?_mem hg)

theorem headD_drop (allLinks : List (List String)) (i : Nat) :
    (allLinks.drop i).headD [] = allLinks.getD i [] := by
  induction allLinks generalizing i with
  | nil => cases i <;> rfl
  | cons a rest ih =>
    cases i with
    | zero => rfl
    | succ j => simpa using ih j

theorem expandWalk_eq_specWalk (jbs : List String) (allLinks : List (List String))
    (h1 : ∀ ls ∈ allLinks, ∀ link ∈ ls, expansionLinkOk link = true)
    (h2 : ∀ ls ∈ allLinks, List.Pairwise (fun a b => specTripleLe a b = true) ls) :
    ∀ (src seen : List String) (i : Nat),
      expandWalk jbs allLinks src seen i = specExpandWalk jbs src (allLinks.drop i) seen := by
  intro src
  induction src with
  | nil => intro seen i; rfl
  | cons l rest ih =>
    intro seen i
    have hDok : ∀ x ∈ allLinks.getD i [], expansionLinkOk x = true :=
      getD_forall_of_forall allLinks i h1
    have hDpw : List.Pairwise (fun a b => specTripleLe a b = true) (allLinks.getD i []) :=
      getD_pairwise_of_forall allLinks i h2
    have hsortSpec : stableSort specTripleLe (allLinks.getD i []) = allLinks.getD i [] :=
      stableSort_pairwise_eq_self _ _ hDpw
    have hsortCode : ∀ p : String → Bool,
        stableSort expandSortLe ((allLinks.getD i []).filter p) =
          (allLinks.getD i []).filter p := by
      intro p
      apply stableSort_pairwise_eq_self
      have hsub : ((allLinks.getD i []).filter p).Sublist (allLinks.getD i []) :=
        List.filter_sublist _
      refine (hDpw.sublist hsub).imp_of_mem ?_
      intro a b hma hmb hle
      exact specTripleLe_imp_expandSortLe a b
        (hDok a (hsub.mem hma)) (hDok b (hsub.mem hmb)) hle
    unfold expandWalk specExpandWalk
    by_cases hb : isBookLink jbs l = true
    · rw [if_pos hb, if_pos hb]
      dsimp only
      rw [headD_drop, hsortSpec, List.tail_drop]
      by_cases hc : seen.contains (normalizeUrl l) = true
      · rw [if_pos hc, if_pos hc]
        rw [hsortCode]
        rw [emitUnique_filter _ _ _ (fun x _hx hpx => by
          rcases Bool.and_eq_false_iff.mp hpx with hne | hcon
          · have : normalizeUrl x = normalizeUrl l := by
              simpa using hne
            rw [this]
            exact hc
          · simp only [Bool.not_eq_false'] at hcon
            exact hcon)]
        conv_rhs => unfold emitUnique
        dsimp only
        rw [if_pos hc]
        rw [ih _ (i + 1)]
        rfl
      · rw [if_neg hc, if_neg hc]
        rw [hsortCode]
        rw [emitUnique_filter _ _ _ (fun x _hx hpx => by
          rcases Bool.and_eq_false_iff.mp hpx with hne | hcon
          · have hxe : normalizeUrl x = normalizeUrl l := by
              simpa using hne
            rw [hxe]
            simp [List.contains_cons]
          · simp only [Bool.not_eq_false'] at hcon
            exact hcon)]
        conv_rhs => unfold emitUnique
        dsimp only
        rw [if_neg hc]
        rw [ih _ (i + 1)]
        rfl
    · rw [if_neg hb, if_neg hb]
      dsimp only
      by_cases hc : seen.contains (normalizeUrl l) = true
      · rw [if_pos hc]
        conv_rhs => unfold emitUnique
        dsimp only
        rw [if_pos hc]
        rw [ih seen i]
        rfl
      · rw [if_neg hc]
        conv_rhs => unfold emitUnique
        dsimp only
        rw [if_neg hc]
        rw [ih _ i]
        rfl

/-- C5: when every discovered expansion link parses as a URL and lies on a
`chapters/N[/M]` path (which `findJupyterBookLinks` guarantees), and each
per-page discovery list arrives sorted in the canonical order its sorting
stage establishes (chapter ascending, then subsection ascending with the
bare chapter page as subsection 0, then path lexical order), the expanded
output equals the specification walk: the original `sourceLinks` are walked
in order, a non-book link is emitted unchanged unless its normalized form
was already emitted, and a book-domain link is emitted followed immediately
by its discovered expansion links in that canonical order, skipping any
link whose normalized form was already emitted — expansions are interleaved
right after their originating link, never appended at the end. -/
theorem expandJupyterBookLinks_interleaves (sourceLinks jupyterbookURLs : List String)
    (allLinks : List (List String))
    (h1 : ∀ ls ∈ allLinks, ∀ link ∈ ls, expansionLinkOk link = true)
    (h2 : ∀ ls ∈ allLinks, List.Pairwise (fun a b => specTripleLe a b = true) ls) :
    expandJupyterBookLinks sourceLinks jupyterbookURLs allLinks =
      specExpandInterleave sourceLinks jupyterbookURLs allLinks := by
  unfold expandJupyterBookLinks specExpandInterleave
  rw [expandWalk_eq_specWalk jupyterbookURLs allLinks h1 h2 sourceLinks [] 0]
  rw [List.drop_zero]

/-- C5 (witness): the spec's expansion-ordering example — source page
`chapters/3/2` with discovered links `chapters/3, 3/1, 3/2, 3/3` expands to
the chapter page first, subsections ascending, deduplicated against the
originating link, interleaved before the following non-book link. -/
theorem expandJupyterBookLinks_interleaves_witness :
    expandJupyterBookLinks
      ["https://b.com/chapters/3/2", "https://other.com/x"]
      ["b.com"]
      [["https://b.com/chapters/3", "https://b.com/chapters/3/1",
        "https://b.com/chapters/3/2", "https://b.com/chapters/3/3"]] =
      ["https://b.com/chapters/3/2", "https://b.com/chapters/3",
       "https://b.com/chapters/3/1", "https://b.com/chapters/3/3",
       "https://other.com/x"] := by
  rw [expandJupyterBookLinks_interleaves _ _ _ (by decide) (by decide)]
  decide

end Jupytutor
